import Mathlib

/-!
# Verification of the songbook pagination and cross-reference engine

Shallow embedding of the core logic of `create_song_book.py`:
word splitting and line wrapping (`split_long_text`), artist extraction
(`extract_artist_from_filename`), source classification (separate folders,
manifest "extra index" folders), the page estimator (`estimate_index_pages`),
the offset resolver (`pdf_start_page_map` and the merged-position map of the
linker), the artist index grouping (`artist_songs`), and the vertical layout
traces of the index renderer (`create_index`) and of the link annotator
(`add_all_index_links_with_pypdf`).

Conventions:
* Lengths are exact rationals from the source scaled by 254, i.e. one unit is
  1/254 of a PostScript point.  ReportLab's `cm` is `72/2.54 = 3600/127` points,
  hence `7200` units; every layout constant of the script is then an integer
  and no floating point is needed.
* ReportLab's `stringWidth` is an opaque width oracle `w : String → ℤ`
  (in the same units); the script only compares such widths.
* Python's `str.split()` (split on whitespace runs, drop empties) is `pySplit`;
  Python's stable `sorted` is `sortLe` (insertion sort, stable for a total
  preorder, hence it agrees with any stable sort such as timsort);
  a Python `dict` (insertion-ordered, last write wins for repeated keys)
  is an association list.
-/

/-! ## Python string primitives -/

/-- Characterwise lowercasing, modelling `str.lower()` on the ASCII range
(the script's sort keys). -/
def lowerStr (s : String) : String := ⟨s.data.map Char.toLower⟩

/-- Split a character list at every whitespace character, keeping empty pieces
(the pieces of `groupSplit l` are the maximal whitespace-free runs of `l`,
plus empties). -/
def groupSplit : List Char → List (List Char)
  | [] => [[]]
  | c :: cs =>
    let r := groupSplit cs
    if c.isWhitespace then [] :: r
    else (c :: r.headI) :: r.tail

/-- Python `str.split()` with no argument: split on whitespace runs and drop
empty pieces. -/
def pySplit (s : String) : List String := ((groupSplit s.data).filter (· ≠ [])).map (fun l => ⟨l⟩)

/-- Python `' '.join(ws)`. -/
def joinSpace : List String → String
  | [] => ""
  | u :: us => us.foldl (fun acc v => acc ++ " " ++ v) u

/-- `' '.join(s.strip().split())`: collapse whitespace runs to single spaces and
strip the ends (`strip()` is subsumed by `split()`). -/
def normalizeWS (s : String) : String := joinSpace (pySplit s)

/-- Python `s.split(' - ', 1)` when the separator occurs: the part before the
first (leftmost) occurrence of `' - '` and the remainder; `none` when the
separator does not occur. -/
def splitFirstDash : List Char → Option (List Char × List Char)
  | [] => none
  | [_] => none
  | [_, _] => none
  | c :: d :: e :: rest =>
    if c = ' ' ∧ d = '-' ∧ e = ' ' then some ([], rest)
    else (splitFirstDash (d :: e :: rest)).map (fun p => (c :: p.1, p.2))

/-! ## `split_long_text` (line wrapping) -/

/-- Loop body of `split_long_text`: state is `(lines, current_line)`, the next
word is appended to `current_line` if the joined line still fits, otherwise the
full `current_line` is flushed (or, when `current_line` is empty, the single
over-wide word is flushed alone — forced break). -/
def split_long_text_step (w : String → ℤ) (max_width : ℤ)
    (st : List String × String) (word : String) : List String × String :=
  if w (st.2 ++ (if st.2 = "" then "" else " ") ++ word) ≤ max_width then
    (st.1, st.2 ++ (if st.2 = "" then "" else " ") ++ word)
  else if st.2 ≠ "" then (st.1 ++ [st.2], word)
  else (st.1 ++ [word], "")

/-- The final flush of `split_long_text`: append the pending `current_line`
if non-empty. -/
def finishLines (st : List String × String) : List String :=
  if st.2 ≠ "" then st.1 ++ [st.2] else st.1

/-- `split_long_text(canvas, text, font, size, max_width, ...)`: the canvas,
font and size only enter through the width oracle `w`; the two margin
arguments of the Python function are unused by its body. -/
def split_long_text (w : String → ℤ) (text : String) (max_width : ℤ) : List String :=
  if w text ≤ max_width then [text]
  else finishLines ((pySplit text).foldl (split_long_text_step w max_width) ([], ""))

/-- The whitespace-separated words of the returned lines, concatenated in
order. -/
def wordsOfLines (lines : List String) : List String := (lines.map pySplit).flatten

/-! ## `extract_artist_from_filename` -/

/-- `extract_artist_from_filename(stem)`: split at the first `' - '`; the part
before it is the song name, the remainder the artist name, both
whitespace-normalized; `(None, stem)` when the separator does not occur. -/
def extract_artist_from_filename (stem0 : String) : Option String × String :=
  match splitFirstDash stem0.data with
  | some (song, artist) => (some (normalizeWS ⟨artist⟩), normalizeWS ⟨song⟩)
  | none => (none, stem0)

/-! ## Python stable sort -/

/-- Stable insertion of `a` into `l`: `a` goes in front of the first element it
compares `le` to, so elements with equal keys keep their relative order. -/
def insertLe (le : α → α → Bool) (a : α) : List α → List α
  | [] => [a]
  | b :: bs => if le a b then a :: b :: bs else b :: insertLe le a bs

/-- Stable sort by a boolean total preorder; agrees with Python's stable
`sorted` for such comparators. -/
def sortLe (le : α → α → Bool) : List α → List α
  | [] => []
  | a :: as => insertLe le a (sortLe le as)

/-- Keep the first occurrence of each element, dropping later duplicates:
the `seen` set loop of the script. -/
def dedupFirst [DecidableEq α] (l : List α) : List α :=
  l.foldl (fun acc p => if p ∈ acc then acc else acc ++ [p]) []

/-- Case-insensitive comparison used by every `sorted(..., key=lambda p:
p.stem.lower())` in the script: lexicographic on the lowercased characters. -/
def lowerLe (a b : String) : Bool := decide ((lowerStr a).data ≤ (lowerStr b).data)

/-! ## Source classification -/

/-- A folder below `pdf_folder`, with its marker facts: `.separate` marker,
a manifest file (`more.txt`) with its parsed lines, a `.column` marker, and the
PDF file names physically inside the folder (in directory order). -/
structure Folder where
  name : String
  hasSeparate : Bool
  hasManifest : Bool
  manifest : List String
  pdfs : List String
  hasColumn : Bool
deriving DecidableEq

/-- The discovered input tree: PDF file names directly under `pdf_folder`,
plus the subfolders. -/
structure Config where
  rootPdfs : List String
  folders : List Folder
deriving DecidableEq

/-- A document, identified by its containing folder's name (`""` for the root
folder) and its file name; stands for the `Path` identity of the script. -/
abbrev Doc := String × String

/-- `Path.stem` for the file names in play: the name without its `.pdf`
extension. -/
def stem (n : String) : String :=
  if n.data.drop (n.data.length - 4) = ['.', 'p', 'd', 'f'] then ⟨n.data.take (n.data.length - 4)⟩
  else n

/-- Comparison by `p.stem.lower()`. -/
def stemLe (a b : Doc) : Bool := lowerLe (stem a.2) (stem b.2)

/-- `sorted(..., key=lambda p: p.stem.lower())`. -/
def sortByStem (l : List Doc) : List Doc := sortLe stemLe l

/-- The documents of a folder. -/
def folderDocs (f : Folder) : List Doc := f.pdfs.map (fun n => (f.name, n))

/-- `all_pdf_files = sorted(pdf_folder.rglob("*.pdf"), key=lambda p: p.stem.lower())`. -/
def allPdfFiles (cfg : Config) : List Doc :=
  sortByStem (cfg.rootPdfs.map (fun n => ("", n)) ++ cfg.folders.flatMap folderDocs)

/-- `separate_songs_set`: every PDF inside a folder carrying a `.separate`
marker. -/
def separateSongs (cfg : Config) : List Doc :=
  (cfg.folders.filter (·.hasSeparate)).flatMap folderDocs

/-- `pdf_files = [p for p in all_pdf_files if p not in separate_songs_set]`. -/
def pdf_files (cfg : Config) : List Doc :=
  (allPdfFiles cfg).filter (fun d => d ∉ separateSongs cfg)

/-- `pdf_name_to_path = {p.name: p for p in pdf_files}`: a dict comprehension,
so for a repeated name the last entry wins. -/
def pdf_name_to_path (cfg : Config) (n : String) : Option Doc :=
  ((pdf_files cfg).filter (fun d => d.2 = n)).getLast?

/-- The document list of the extra ("manifest") index of a folder carrying a
manifest file: the manifest names resolved through `pdf_name_to_path`, then the
PDFs physically present in the folder, deduplicated keeping first occurrences,
then sorted case-insensitively by stem. -/
def extra_index_pdfs (cfg : Config) (f : Folder) : List Doc :=
  let matched_pdfs := f.manifest.filterMap (pdf_name_to_path cfg)
  let folder_pdfs := folderDocs f
  sortByStem (dedupFirst (matched_pdfs ++ folder_pdfs))

/-! ## Artist grouping -/

/-- `artist_songs`: insertion-ordered dict from artist name to its
`(song_name, pdf_path)` list (the path is represented by the stem), built from
the stems of `pdf_files`; a stem contributes exactly when
`extract_artist_from_filename` yields a truthy (non-empty) artist. -/
def artist_songs (stems : List String) : List (String × List (String × String)) :=
  stems.foldl
    (fun m st =>
      match extract_artist_from_filename st with
      | (some artist, song) =>
        if artist ≠ "" then
          if m.any (fun p => p.1 = artist) then
            m.map (fun p => if p.1 = artist then (p.1, p.2 ++ [(song, st)]) else p)
          else m ++ [(artist, [(song, st)])]
        else m
      | (none, _) => m)
    []

/-- `sorted(artist_songs.keys(), key=lambda x: x.lower())`: the order in which
artists are rendered. -/
def sorted_artists (m : List (String × List (String × String))) : List String :=
  sortLe lowerLe (m.map Prod.fst)

/-- `songs.sort(key=lambda x: x[0].lower())`: the order in which an artist's
songs are rendered. -/
def sorted_songs (songs : List (String × String)) : List (String × String) :=
  sortLe (fun a b => lowerLe a.1 b.1) songs

/-! ## Layout constants (units of 1/254 pt) -/

/-- ReportLab `cm = 72/2.54` points `= 7200` units. -/
def cmU : ℤ := 7200

/-- A4 height `= 29.7 cm`. -/
def A4heightU : ℤ := 297 * cmU / 10

/-- A4 width `= 21 cm`. -/
def A4widthU : ℤ := 210 * cmU / 10

/-- `INDEX_LINE_SPACING = 0.6 * cm`. -/
def lineSpacingU : ℤ := 6 * cmU / 10

/-- `INDEX_SONG_FONT_SIZE = 12` points. -/
def songFontSizeU : ℤ := 12 * 254

/-- `margin_left = 1.5 * cm` in `create_index`. -/
def marginLeftU : ℤ := 3 * cmU / 2

/-- `margin_right = 1.5 * cm`. -/
def marginRightU : ℤ := 3 * cmU / 2

/-- `margin_top = 4 * cm`. -/
def marginTopU : ℤ := 4 * cmU

/-- `margin_bottom = 2 * cm`. -/
def marginBottomU : ℤ := 2 * cmU

/-- `total_content_width = width - margin_left - margin_right`. -/
def totalContentWidthU : ℤ := A4widthU - marginLeftU - marginRightU

/-- `column_gap = 1 * cm`. -/
def columnGapU : ℤ := cmU

/-- `column_width = (total_content_width - column_gap) / 2` (exact: the
numerator is even). -/
def columnWidthU : ℤ := (totalContentWidthU - columnGapU) / 2

/-- `songs_per_column = int(available_height // INDEX_LINE_SPACING)` with
`available_height = height - margin_top - margin_bottom`. -/
def songs_per_column : ℕ := ((A4heightU - marginTopU - marginBottomU) / lineSpacingU).toNat

/-- `songs_per_page = songs_per_column * 2`. -/
def songs_per_page : ℕ := songs_per_column * 2

/-- `header_y = height - 3.5 * cm` (`draw_headers`). -/
def headerYU : ℤ := A4heightU - 7 * cmU / 2

/-- `draw_headers()` returns `header_y - 0.8 * cm`: the baseline of the first
entry on a page of `create_index`. -/
def songsStartYU : ℤ := headerYU - 4 * cmU / 5

/-! ## `estimate_index_pages` -/

/-- `estimate_index_pages(num_songs)`: ceiling division of the item count by
`songs_per_page`, computed as `(num_songs + songs_per_page - 1) //
songs_per_page`. -/
def estimate_index_pages (num_songs : ℕ) : ℕ :=
  (num_songs + songs_per_page - 1) / songs_per_page

/-! ## `create_index`: vertical layout trace

For each entry `(title, song_page)` of the index, the `(page, column,
baseline y)` at which its first line — the line carrying the page-number
field — is drawn.  `column = true` is the right column (filled first, Hebrew
reading order).  The title's line count is `len(split_long_text(...))` with
`available_width = column_width - stringWidth(str(song_page)) - 1*cm`. -/

/-- Number of lines the (possibly wrapped) title of an entry occupies. -/
def entryLineCount (w : String → ℤ) (title : String) (song_page : ℕ) : ℕ :=
  (split_long_text w title (columnWidthU - w (toString song_page) - cmU)).length

/-- The per-entry loop of `create_index`: before drawing, an entry that does
not fit the remaining column height moves to the left column (from the right)
or to a fresh page (from the left); after drawing, the column switches to the
left when the page's song count reaches `songs_per_column` while in the right
column. -/
def create_index_positions_aux (w : String → ℤ) :
    List (String × ℕ) → ℕ → ℤ → Bool → ℕ → List (ℕ × Bool × ℤ)
  | [], _, _, _, _ => []
  | (title, pg) :: rest, page, y, col, drawn =>
    let space : ℤ := (entryLineCount w title pg : ℤ) * lineSpacingU
    let st :=
      if y - space < marginBottomU then
        if col then (page, A4heightU - marginTopU, false, drawn)
        else (page + 1, songsStartYU, true, 0)
      else (page, y, col, drawn)
    match st with
    | (page1, y1, col1, drawn1) =>
      let drawn2 := drawn1 + 1
      (page1, col1, y1) ::
        (if col1 && decide (drawn2 % songs_per_column = 0) then
          create_index_positions_aux w rest page1 (A4heightU - marginTopU) false drawn2
        else
          create_index_positions_aux w rest page1 (y1 - space) col1 drawn2)

/-- Positions at which `create_index` draws each entry's page-number line. -/
def create_index_positions (w : String → ℤ) (entries : List (String × ℕ)) :
    List (ℕ × Bool × ℤ) :=
  create_index_positions_aux w entries 0 songsStartYU true 0

/-! ## `add_all_index_links_with_pypdf`: clickable-region trace

For each of the first `n` entries of an index, the `(page, column, y)` used
for the link rectangle `(x1, y - font_size, x1 + 30, y)`.  The loop advances
exactly one `INDEX_LINE_SPACING` per entry — independent of the entry's
wrapped line count — starting each page at `height - margin_top`. -/

/-- The per-entry loop of the linker (`songs_per_page` entries per page,
column switch at `songs_per_column`, page reset to `height - margin_top`). -/
def add_links_positions_aux : ℕ → ℕ → ℕ → Bool → ℤ → List (ℕ × Bool × ℤ)
  | 0, _, _, _, _ => []
  | k + 1, page, sop, col, y =>
    let st :=
      if songs_per_page ≤ sop then (page + 1, 0, true, A4heightU - marginTopU)
      else (page, sop, col, y)
    match st with
    | (page1, sop1, col1, y1) =>
      let sop2 := sop1 + 1
      (page1, col1, y1) ::
        (if decide (sop2 % songs_per_column = 0) && col1 then
          add_links_positions_aux k page1 sop2 false (A4heightU - marginTopU)
        else
          add_links_positions_aux k page1 sop2 col1 (y1 - lineSpacingU))

/-- Positions used by the linker for the first `n` entries' clickable
regions. -/
def add_links_positions (n : ℕ) : List (ℕ × Bool × ℤ) :=
  add_links_positions_aux n 0 0 true (A4heightU - marginTopU)

/-! ## Offset resolver -/

/-- Cumulative start pages: first document starts at `start`, each next one
`page_count` later. -/
def startPagesFrom (start : ℕ) : List ℕ → List ℕ
  | [] => []
  | c :: cs => start :: startPagesFrom (start + c) cs

/-- `pdf_start_page_map`: `cum_page = 1`, then one entry per regular document
in order — the first song is page 1 (song-relative numbering, matching the
numbers later stamped on the song pages). -/
def pdf_start_page_map (page_counts : List ℕ) : List ℕ := startPagesFrom 1 page_counts

/-- `separate_pdf_start_page_map`: separate documents continue the same
counter after all regular documents. -/
def separate_pdf_start_page_map (regular_counts sep_counts : List ℕ) : List ℕ :=
  startPagesFrom (1 + regular_counts.sum) sep_counts

/-- `pdf_to_merged_position` in the linker: 0-based position of each regular
document in the merged file, starting at `total_index_pages`. -/
def pdf_to_merged_position (total_index_pages : ℕ) (page_counts : List ℕ) : List ℕ :=
  startPagesFrom total_index_pages page_counts

/-! ## Concrete inputs used by the claims -/

/-- Manifest scenario folder: manifest lists `["B.pdf", "A.pdf"]`, the folder
also contains `C.pdf` (and the listed files). -/
def manifestFolder : Folder :=
  { name := "F", hasSeparate := false, hasManifest := true,
    manifest := ["B.pdf", "A.pdf"], pdfs := ["A.pdf", "B.pdf", "C.pdf"], hasColumn := false }

/-- Configuration for the manifest scenario. -/
def manifestCfg : Config := { rootPdfs := [], folders := [manifestFolder] }

/-- A folder carrying both the separate-pagination marker and a manifest
file, holding one document. -/
def sepManifestFolder : Folder :=
  { name := "G", hasSeparate := true, hasManifest := true,
    manifest := ["X.pdf"], pdfs := ["X.pdf"], hasColumn := false }

/-- Configuration around `sepManifestFolder`. -/
def sepManifestCfg : Config := { rootPdfs := [], folders := [sepManifestFolder] }

/-- Width oracle for the layout counterexample: every character 10 pt wide
(`2540` units). -/
def wTen (s : String) : ℤ := 2540 * (s.length : ℤ)

/-- Character-count width oracle (1 unit per character). -/
def wLen (s : String) : ℤ := (s.length : ℤ)

/-! ## Lemmas: stable sort -/

theorem insertLe_perm (le : α → α → Bool) (a : α) (l : List α) :
    (insertLe le a l).Perm (a :: l) := by
  induction l with
  | nil => exact List.Perm.refl _
  | cons b bs ih =>
    rw [insertLe]
    split
    · exact List.Perm.refl _
    · exact (List.Perm.cons b ih).trans (List.Perm.swap a b bs)

theorem sortLe_perm (le : α → α → Bool) (l : List α) : (sortLe le l).Perm l := by
  induction l with
  | nil => exact List.Perm.refl _
  | cons a as ih => exact (insertLe_perm le a (sortLe le as)).trans (List.Perm.cons a ih)

theorem mem_insertLe (le : α → α → Bool) (a x : α) (l : List α) :
    x ∈ insertLe le a l ↔ x = a ∨ x ∈ l :=
  ((insertLe_perm le a l).mem_iff).trans List.mem_cons

theorem pairwise_insertLe (le : α → α → Bool)
    (htrans : ∀ a b c, le a b = true → le b c = true → le a c = true)
    (htot : ∀ a b, le a b = false → le b a = true)
    (a : α) (l : List α) (h : l.Pairwise (fun x y => le x y = true)) :
    (insertLe le a l).Pairwise (fun x y => le x y = true) := by
  induction l with
  | nil => simp [insertLe]
  | cons b bs ih =>
    rw [insertLe]
    rcases List.pairwise_cons.mp h with ⟨hb, hbs⟩
    by_cases hab : le a b = true
    · rw [if_pos hab]
      refine List.pairwise_cons.mpr ⟨?_, h⟩
      intro x hx
      rcases List.mem_cons.mp hx with rfl | hx
      · exact hab
      · exact htrans a b x hab (hb x hx)
    · rw [if_neg hab]
      refine List.pairwise_cons.mpr ⟨?_, ih hbs⟩
      intro x hx
      rcases (mem_insertLe le a x bs).mp hx with rfl | hx
      · exact htot _ b (Bool.eq_false_iff.mpr hab)
      · exact hb x hx

theorem pairwise_sortLe (le : α → α → Bool)
    (htrans : ∀ a b c, le a b = true → le b c = true → le a c = true)
    (htot : ∀ a b, le a b = false → le b a = true)
    (l : List α) : (sortLe le l).Pairwise (fun x y => le x y = true) := by
  induction l with
  | nil => simp [sortLe]
  | cons a as ih => exact pairwise_insertLe le htrans htot a (sortLe le as) ih

theorem lowerLe_trans (a b c : String)
    (h1 : lowerLe a b = true) (h2 : lowerLe b c = true) : lowerLe a c = true := by
  simp only [lowerLe, decide_eq_true_iff] at *
  exact le_trans h1 h2

theorem lowerLe_total (a b : String) (h : lowerLe a b = false) : lowerLe b a = true := by
  simp only [lowerLe, decide_eq_false_iff_not, decide_eq_true_iff] at *
  exact le_of_not_le h

theorem stemLe_trans (a b c : Doc)
    (h1 : stemLe a b = true) (h2 : stemLe b c = true) : stemLe a c = true :=
  lowerLe_trans _ _ _ h1 h2

theorem stemLe_total (a b : Doc) (h : stemLe a b = false) : stemLe b a = true :=
  lowerLe_total _ _ h

/-! ## Lemmas: first-occurrence dedup -/

theorem mem_dedupFirst_aux [DecidableEq α] (x : α) (l : List α) :
    ∀ acc : List α,
      (x ∈ l.foldl (fun acc p => if p ∈ acc then acc else acc ++ [p]) acc ↔ x ∈ acc ∨ x ∈ l) := by
  induction l with
  | nil => simp
  | cons p ps ih =>
    intro acc
    simp only [List.foldl_cons]
    by_cases hp : p ∈ acc
    · rw [if_pos hp, ih]
      constructor
      · rintro (h | h)
        · exact Or.inl h
        · exact Or.inr (List.mem_cons_of_mem _ h)
      · rintro (h | h)
        · exact Or.inl h
        · rcases List.mem_cons.mp h with rfl | h
          · exact Or.inl hp
          · exact Or.inr h
    · rw [if_neg hp, ih]
      simp only [List.mem_append, List.mem_singleton, List.mem_cons]
      tauto

theorem mem_dedupFirst [DecidableEq α] (x : α) (l : List α) :
    x ∈ dedupFirst l ↔ x ∈ l := by
  rw [dedupFirst, mem_dedupFirst_aux]
  simp

theorem nodup_dedupFirst_aux [DecidableEq α] (l : List α) :
    ∀ acc : List α, acc.Nodup →
      (l.foldl (fun acc p => if p ∈ acc then acc else acc ++ [p]) acc).Nodup := by
  induction l with
  | nil => intro acc h; simpa using h
  | cons p ps ih =>
    intro acc hacc
    simp only [List.foldl_cons]
    by_cases hp : p ∈ acc
    · rw [if_pos hp]; exact ih acc hacc
    · rw [if_neg hp]
      refine ih _ ?_
      simpa [List.nodup_append, hp] using hacc

theorem nodup_dedupFirst [DecidableEq α] (l : List α) : (dedupFirst l).Nodup :=
  nodup_dedupFirst_aux l [] List.nodup_nil

/-! ## Lemmas: Python word splitting -/

theorem groupSplit_ne_nil (l : List Char) : groupSplit l ≠ [] := by
  cases l with
  | nil => simp [groupSplit]
  | cons c cs =>
    rw [groupSplit]
    split <;> simp

theorem groupSplit_append_ws (c : Char) (hc : c.isWhitespace = true) :
    ∀ a b : List Char, groupSplit (a ++ c :: b) = groupSplit a ++ groupSplit b := by
  intro a
  induction a with
  | nil => intro b; simp [groupSplit, hc]
  | cons d ds ih =>
    intro b
    show groupSplit (d :: (ds ++ c :: b)) = groupSplit (d :: ds) ++ groupSplit b
    rw [groupSplit, groupSplit]
    by_cases hd : d.isWhitespace
    · simp [hd, ih]
    · simp only [if_neg hd, ih]
      cases hgds : groupSplit ds with
      | nil => exact absurd hgds (groupSplit_ne_nil ds)
      | cons u us => simp

theorem mem_groupSplit_not_ws :
    ∀ (l u : List Char), u ∈ groupSplit l → ∀ ch ∈ u, ch.isWhitespace = false := by
  intro l
  induction l with
  | nil =>
    intro u hu ch hch
    simp [groupSplit] at hu
    subst hu
    simp at hch
  | cons c cs ih =>
    intro u hu ch hch
    rw [groupSplit] at hu
    by_cases hcws : c.isWhitespace
    · rw [if_pos hcws] at hu
      rcases List.mem_cons.mp hu with rfl | hu
      · simp at hch
      · exact ih u hu ch hch
    · rw [if_neg hcws] at hu
      cases hgcs : groupSplit cs with
      | nil => exact absurd hgcs (groupSplit_ne_nil cs)
      | cons v vs =>
        rw [hgcs] at hu
        simp only [List.headI_cons, List.tail_cons] at hu
        rcases List.mem_cons.mp hu with rfl | hu
        · rcases List.mem_cons.mp hch with rfl | hch
          · simpa using hcws
          · exact ih v (by rw [hgcs]; exact List.mem_cons_self v vs) ch hch
        · exact ih u (by rw [hgcs]; exact List.mem_cons_of_mem v hu) ch hch

theorem groupSplit_no_ws :
    ∀ l : List Char, (∀ ch ∈ l, ch.isWhitespace = false) → groupSplit l = [l] := by
  intro l
  induction l with
  | nil => intro _; rfl
  | cons c cs ih =>
    intro h
    have hc : c.isWhitespace = false := h c (List.mem_cons_self c cs)
    have hcs := ih (fun ch hch => h ch (List.mem_cons_of_mem c hch))
    rw [groupSplit, if_neg (by simp [hc]), hcs]
    simp

theorem pySplit_append_space (a b : String) :
    pySplit (a ++ " " ++ b) = pySplit a ++ pySplit b := by
  unfold pySplit
  have hd : (a ++ " " ++ b).data = a.data ++ ' ' :: b.data := by
    simp [String.data_append]
  rw [hd, groupSplit_append_ws ' ' (by decide), List.filter_append, List.map_append]

theorem pySplit_no_ws (u : String) (hne : u.data ≠ [])
    (h : ∀ ch ∈ u.data, ch.isWhitespace = false) : pySplit u = [u] := by
  unfold pySplit
  rw [groupSplit_no_ws u.data h]
  simp [hne]

theorem mem_pySplit (u s : String) (hu : u ∈ pySplit s) :
    u.data ≠ [] ∧ ∀ ch ∈ u.data, ch.isWhitespace = false := by
  unfold pySplit at hu
  rcases List.mem_map.mp hu with ⟨l, hl, rfl⟩
  rcases List.mem_filter.mp hl with ⟨hmem, hne⟩
  refine ⟨by simpa using hne, ?_⟩
  intro ch hch
  exact mem_groupSplit_not_ws s.data l hmem ch hch

theorem pySplit_empty : pySplit "" = [] := rfl

theorem wordsOfLines_append (l m : List String) :
    wordsOfLines (l ++ m) = wordsOfLines l ++ wordsOfLines m := by
  simp [wordsOfLines]

theorem wordsOfLines_singleton (u : String) : wordsOfLines [u] = pySplit u := by
  simp [wordsOfLines]

theorem split_long_text_step_words (w : String → ℤ) (max_width : ℤ)
    (lines : List String) (current : String) (u : String)
    (hne : u.data ≠ []) (hnws : ∀ ch ∈ u.data, ch.isWhitespace = false) :
    wordsOfLines (split_long_text_step w max_width (lines, current) u).1 ++
        pySplit (split_long_text_step w max_width (lines, current) u).2 =
      wordsOfLines lines ++ pySplit current ++ [u] := by
  have hu1 : pySplit u = [u] := pySplit_no_ws u hne hnws
  by_cases hc : current = ""
  · subst hc
    show wordsOfLines
          (if w ("" ++ "" ++ u) ≤ max_width then (lines, "" ++ "" ++ u)
            else (lines ++ [u], "")).1 ++
        pySplit
          (if w ("" ++ "" ++ u) ≤ max_width then (lines, "" ++ "" ++ u)
            else (lines ++ [u], "")).2 =
      wordsOfLines lines ++ pySplit "" ++ [u]
    have hred : ("" ++ "" ++ u) = u := rfl
    rw [hred, pySplit_empty]
    by_cases hfit : w u ≤ max_width
    · rw [if_pos hfit]
      show wordsOfLines lines ++ pySplit u = _
      rw [hu1]
      simp
    · rw [if_neg hfit]
      show wordsOfLines (lines ++ [u]) ++ pySplit "" = _
      rw [pySplit_empty, wordsOfLines_append, wordsOfLines_singleton, hu1]
      simp
  · unfold split_long_text_step
    simp only [if_neg hc]
    by_cases hfit : w (current ++ " " ++ u) ≤ max_width
    · rw [if_pos hfit]
      show wordsOfLines lines ++ pySplit (current ++ " " ++ u) = _
      rw [pySplit_append_space, hu1]
      simp
    · rw [if_neg hfit, if_pos hc]
      show wordsOfLines (lines ++ [current]) ++ pySplit u = _
      rw [wordsOfLines_append, wordsOfLines_singleton, hu1]

theorem split_long_text_foldl_words (w : String → ℤ) (max_width : ℤ) :
    ∀ (ws : List String) (lines : List String) (current : String),
      (∀ u ∈ ws, u.data ≠ [] ∧ ∀ ch ∈ u.data, ch.isWhitespace = false) →
      wordsOfLines (ws.foldl (split_long_text_step w max_width) (lines, current)).1 ++
          pySplit (ws.foldl (split_long_text_step w max_width) (lines, current)).2 =
        wordsOfLines lines ++ pySplit current ++ ws := by
  intro ws
  induction ws with
  | nil => intro lines current _; simp
  | cons u us ih =>
    intro lines current hws
    obtain ⟨hne, hnws⟩ := hws u (List.mem_cons_self u us)
    have hus := fun v hv => hws v (List.mem_cons_of_mem u hv)
    rw [List.foldl_cons]
    rcases hst : split_long_text_step w max_width (lines, current) u with ⟨l1, c1⟩
    have hstep := split_long_text_step_words w max_width lines current u hne hnws
    rw [hst] at hstep
    rw [ih l1 c1 hus, hstep]
    simp

theorem wordsOfLines_finishLines (st : List String × String) :
    wordsOfLines (finishLines st) = wordsOfLines st.1 ++ pySplit st.2 := by
  unfold finishLines
  by_cases hc : st.2 = ""
  · rw [if_neg (by simpa using hc), hc, pySplit_empty]
    simp
  · rw [if_pos hc, wordsOfLines_append, wordsOfLines_singleton]

theorem split_long_text_words (w : String → ℤ) (text : String) (max_width : ℤ) :
    wordsOfLines (split_long_text w text max_width) = pySplit text := by
  unfold split_long_text
  by_cases hfit : w text ≤ max_width
  · rw [if_pos hfit, wordsOfLines_singleton]
  · rw [if_neg hfit, wordsOfLines_finishLines]
    have h := split_long_text_foldl_words w max_width (pySplit text) [] ""
      (fun u hu => mem_pySplit u text hu)
    rw [h]
    simp [wordsOfLines, pySplit_empty]

theorem split_long_text_forced_break (w : String → ℤ) (max_width : ℤ) (text : String)
    (hsingle : pySplit text = [text]) (hwide : max_width < w text) :
    split_long_text w text max_width = [text] := by
  unfold split_long_text
  rw [if_neg (not_le.mpr hwide), hsingle]
  show finishLines (split_long_text_step w max_width ([], "") text) = [text]
  show finishLines
      (if w ("" ++ "" ++ text) ≤ max_width then ([], "" ++ "" ++ text)
        else ([] ++ [text], "")) = [text]
  have hred : ("" ++ "" ++ text) = text := rfl
  rw [hred, if_neg (not_le.mpr hwide)]
  rfl

theorem nat_ceil_div (n m : ℕ) (hm : 0 < m) :
    (((n + m - 1) / m : ℕ) : ℤ) = ⌈(n : ℚ) / (m : ℚ)⌉ := by
  have hmod := Nat.div_add_mod (n + m - 1) m
  have hlt : (n + m - 1) % m < m := Nat.mod_lt _ hm
  set q := (n + m - 1) / m with hq
  have h1 : m * q ≤ n + m - 1 := by omega
  have h2 : n + m - 1 < m * q + m := by omega
  have hmq : (0 : ℚ) < (m : ℚ) := by exact_mod_cast hm
  have key1n : m * q < n + m := by omega
  have key2n : n ≤ m * q := by omega
  have c1 : (m : ℚ) * q < (n : ℚ) + m := by exact_mod_cast key1n
  have c2 : (n : ℚ) ≤ (m : ℚ) * q := by exact_mod_cast key2n
  rw [eq_comm, Int.ceil_eq_iff]
  constructor
  · rw [lt_div_iff₀ hmq]
    push_cast
    nlinarith [c1]
  · rw [div_le_iff₀ hmq]
    push_cast
    nlinarith [c2]

theorem startPagesFrom_shift :
    ∀ (counts : List ℕ) (a : ℕ),
      startPagesFrom a counts = (startPagesFrom 1 counts).map (fun s => a + s - 1) := by
  intro counts
  induction counts with
  | nil => intro a; rfl
  | cons c cs ih =>
    intro a
    rw [startPagesFrom, startPagesFrom, List.map_cons]
    refine congrArg₂ _ (by omega) ?_
    rw [ih (a + c), ih (1 + c), List.map_map]
    refine List.map_congr_left ?_
    intro s _
    simp only [Function.comp_apply]
    omega

theorem splitFirstDash_none :
    ∀ l : List Char, splitFirstDash l = none →
      ∀ a b : List Char, l ≠ a ++ ' ' :: '-' :: ' ' :: b := by
  intro l
  induction l using splitFirstDash.induct with
  | case1 =>
    intro _ a b hab
    have := congrArg List.length hab
    simp at this
    omega
  | case2 x =>
    intro _ a b hab
    have := congrArg List.length hab
    simp at this
    omega
  | case3 x y =>
    intro _ a b hab
    have := congrArg List.length hab
    simp at this
    omega
  | case4 c d e rest h =>
    intro hnone
    rw [splitFirstDash, if_pos h] at hnone
    exact absurd hnone (by simp)
  | case5 c d e rest h ih =>
    intro hnone a b hab
    rw [splitFirstDash, if_neg h] at hnone
    have htail : splitFirstDash (d :: e :: rest) = none := by
      rcases hsfd : splitFirstDash (d :: e :: rest) with _ | p
      · rfl
      · rw [hsfd] at hnone; simp at hnone
    cases a with
    | nil =>
      simp only [List.nil_append] at hab
      injection hab with h1 h2
      injection h2 with h3 h4
      injection h4 with h5 h6
      exact h ⟨h1, h3, h5⟩
    | cons a0 as =>
      simp only [List.cons_append] at hab
      injection hab with h1 h2
      exact ih htail as b h2

theorem splitFirstDash_some :
    ∀ (l p q : List Char), splitFirstDash l = some (p, q) →
      l = p ++ ' ' :: '-' :: ' ' :: q ∧
        ∀ a b : List Char, l = a ++ ' ' :: '-' :: ' ' :: b → p.length ≤ a.length := by
  intro l
  induction l using splitFirstDash.induct with
  | case1 => intro p q hsome; exact absurd hsome (by simp [splitFirstDash])
  | case2 x => intro p q hsome; exact absurd hsome (by simp [splitFirstDash])
  | case3 x y => intro p q hsome; exact absurd hsome (by simp [splitFirstDash])
  | case4 c d e rest h =>
    intro p q hsome
    rw [splitFirstDash, if_pos h] at hsome
    simp only [Option.some.injEq, Prod.mk.injEq] at hsome
    obtain ⟨rfl, rfl⟩ := hsome
    obtain ⟨rfl, rfl, rfl⟩ := h
    exact ⟨rfl, fun a b _ => Nat.zero_le _⟩
  | case5 c d e rest h ih =>
    intro p q hsome
    rw [splitFirstDash, if_neg h] at hsome
    rcases hsfd : splitFirstDash (d :: e :: rest) with _ | pq
    · rw [hsfd] at hsome; simp at hsome
    · rcases pq with ⟨pp, qq⟩
      rw [hsfd] at hsome
      simp only [Option.map_some', Option.some.injEq, Prod.mk.injEq] at hsome
      obtain ⟨rfl, rfl⟩ := hsome
      obtain ⟨htl, hmin⟩ := ih pp qq hsfd
      refine ⟨congrArg (c :: ·) htl, ?_⟩
      intro a b hab
      cases a with
      | nil =>
        simp only [List.nil_append] at hab
        injection hab with h1 h2
        injection h2 with h3 h4
        injection h4 with h5 h6
        exact absurd ⟨h1, h3, h5⟩ h
      | cons a0 as =>
        simp only [List.cons_append] at hab
        injection hab with h1 h2
        simpa using Nat.succ_le_succ (hmin as b h2)

/-! ## Lemmas: artist dictionary keys -/

theorem artist_songs_foldl_keys_nodup :
    ∀ (stems : List String) (m : List (String × List (String × String))),
      (m.map Prod.fst).Nodup →
      ((stems.foldl
          (fun m st =>
            match extract_artist_from_filename st with
            | (some artist, song) =>
              if artist ≠ "" then
                if m.any (fun p => p.1 = artist) then
                  m.map (fun p => if p.1 = artist then (p.1, p.2 ++ [(song, st)]) else p)
                else m ++ [(artist, [(song, st)])]
              else m
            | (none, _) => m)
          m).map Prod.fst).Nodup := by
  intro stems
  induction stems with
  | nil => intro m hm; simpa using hm
  | cons st sts ih =>
    intro m hm
    rw [List.foldl_cons]
    rcases hx : extract_artist_from_filename st with ⟨oa, song⟩
    cases oa with
    | none => exact ih m hm
    | some artist =>
      by_cases hne : artist ≠ ""
      · simp only [if_pos hne]
        by_cases hmem : m.any (fun p => p.1 = artist)
        · rw [if_pos hmem]
          refine ih _ ?_
          have : (m.map (fun p => if p.1 = artist then (p.1, p.2 ++ [(song, st)]) else p)).map
              Prod.fst = m.map Prod.fst := by
            rw [List.map_map]
            refine List.map_congr_left ?_
            intro p _
            by_cases hp : p.1 = artist <;> simp [hp]
          rw [this]
          exact hm
        · rw [if_neg hmem]
          refine ih _ ?_
          rw [List.map_append]
          have hnotin : artist ∉ m.map Prod.fst := by
            intro hcontra
            rcases List.mem_map.mp hcontra with ⟨p, hp, hfst⟩
            exact hmem (List.any_eq_true.mpr ⟨p, hp, by simp [hfst]⟩)
          simp only [List.map_cons, List.map_nil]
          rw [List.nodup_append]
          exact ⟨hm, List.nodup_singleton artist, by simpa using hnotin⟩
      · simp only [if_neg hne]
        exact ih m hm

theorem artist_songs_keys_nodup (stems : List String) :
    ((artist_songs stems).map Prod.fst).Nodup := by
  unfold artist_songs
  exact artist_songs_foldl_keys_nodup stems [] (by simp)

/-! ## Claim theorems -/

/-- C1 (counterexample): for 3 regular documents with page counts `[2, 1, 3]`
the page numbers printed in the index (the values of `pdf_start_page_map`)
are `[1, 3, 4]`, not the claimed `[2, 4, 5]`: the resolver numbers songs
relative to the song region starting at 1, not at `totalIndexPages + 1`. -/
theorem pdf_start_page_map_not_index_offset :
    pdf_start_page_map [2, 1, 3] = [1, 3, 4] ∧ pdf_start_page_map [2, 1, 3] ≠ [2, 4, 5] := by
  decide

/-- C1 (amended): regular documents receive sequential song-relative start
pages beginning at 1 (`[1, 3, 4]` in the scenario, matching the numbers the
stamper later prints on song pages); the linker's merged positions are 0-based
and offset by `totalIndexPages` (`[1, 3, 4]`, i.e. 1-based absolute pages
`[2, 4, 5]`); in general the merged position is `totalIndexPages + (printed -
1)`, and Separate documents continue the same counter after all regular
documents. -/
theorem pdf_start_page_map_song_relative :
    pdf_start_page_map [2, 1, 3] = [1, 3, 4] ∧
    pdf_to_merged_position 1 [2, 1, 3] = [1, 3, 4] ∧
    (pdf_to_merged_position 1 [2, 1, 3]).map (· + 1) = [2, 4, 5] ∧
    (∀ (tot : ℕ) (counts : List ℕ),
      pdf_to_merged_position tot counts = (pdf_start_page_map counts).map (fun s => tot + s - 1)) ∧
    (∀ (reg extra : List ℕ),
      separate_pdf_start_page_map reg extra =
        (pdf_start_page_map extra).map (fun s => reg.sum + s)) := by
  refine ⟨by decide, by decide, by decide, ?_, ?_⟩
  · intro tot counts
    exact startPagesFrom_shift counts tot
  · intro reg extra
    unfold separate_pdf_start_page_map pdf_start_page_map
    rw [startPagesFrom_shift extra (1 + reg.sum)]
    refine List.map_congr_left ?_
    intro s _
    omega

/-- C2 (counterexample): for a manifest listing `["B.pdf", "A.pdf"]` in a
folder that also contains `C.pdf`, the manifest group order is `A, B, C`
(everything re-sorted case-insensitively), not the claimed `B, A, C`
(declared order first). -/
theorem extra_index_declared_order_refuted :
    extra_index_pdfs manifestCfg manifestFolder =
      [("F", "A.pdf"), ("F", "B.pdf"), ("F", "C.pdf")] ∧
    extra_index_pdfs manifestCfg manifestFolder ≠
      [("F", "B.pdf"), ("F", "A.pdf"), ("F", "C.pdf")] := by
  decide

/-- C2 (amended): the manifest group consists of the manifest-matched
documents together with the documents physically present in the folder,
deduplicated by identity, and then sorted case-insensitively by identifier —
the manifest's declared order is not preserved; the scenario yields
`A, B, C`. -/
theorem extra_index_pdfs_sorted_dedup (cfg : Config) (f : Folder) :
    (extra_index_pdfs cfg f).Pairwise (fun a b => stemLe a b = true) ∧
    (extra_index_pdfs cfg f).Nodup ∧
    (∀ d : Doc, d ∈ extra_index_pdfs cfg f ↔
      d ∈ f.manifest.filterMap (pdf_name_to_path cfg) ∨ d ∈ folderDocs f) ∧
    extra_index_pdfs manifestCfg manifestFolder =
      [("F", "A.pdf"), ("F", "B.pdf"), ("F", "C.pdf")] := by
  refine ⟨pairwise_sortLe stemLe stemLe_trans stemLe_total _, ?_, ?_, by decide⟩
  · exact ((sortLe_perm stemLe _).nodup_iff).mpr (nodup_dedupFirst _)
  · intro d
    unfold extra_index_pdfs sortByStem
    rw [(sortLe_perm stemLe _).mem_iff, mem_dedupFirst, List.mem_append]

/-- C3 (code bug): the linker's clickable regions are not at the coordinates
where the renderer drew the page numbers.  With every character 10 pt wide and
entries `("aaaaaaaaaaaaaaa bbbbbbbbbbbbbbb", 1)` (title wraps to two lines)
and `("c", 3)`, `create_index` draws the page numbers at baselines
`height - 4.3cm` and `height - 4.3cm - 2*spacing` (`182880` and `174240`
units), while the linker anchors the regions at `height - 4cm` and
`height - 4cm - spacing` (`185040` and `180720` units): it starts from a
different top position and advances one line per entry regardless of
wrapping. -/
theorem index_links_diverge_from_rendered_positions :
    create_index_positions wTen [("aaaaaaaaaaaaaaa bbbbbbbbbbbbbbb", 1), ("c", 3)] =
      [(0, true, 182880), (0, true, 174240)] ∧
    add_links_positions 2 = [(0, true, 185040), (0, true, 180720)] ∧
    create_index_positions wTen [("aaaaaaaaaaaaaaa bbbbbbbbbbbbbbb", 1), ("c", 3)] ≠
      add_links_positions 2 := by
  decide

/-- C4 (counterexample): artist names are deduplicated by exact string, not
case-insensitively: stems `"S1 - BET"` and `"S2 - bet"` produce two distinct
artist entries whose names are case-insensitively equal. -/
theorem artist_dedup_case_sensitive_refutation :
    (artist_songs ["S1 - BET", "S2 - bet"]).map Prod.fst = ["BET", "bet"] ∧
    lowerStr "BET" = lowerStr "bet" ∧ ("BET" : String) ≠ "bet" := by
  decide

/-- C4 (amended): artist names are deduplicated by exact (case-sensitive)
name; the rendered artist order is case-insensitively sorted (so `["Bet",
"alef"]` renders as `alef` before `Bet`), and within each artist the songs
are case-insensitively sorted by song name. -/
theorem artist_index_ordering (stems : List String) :
    ((artist_songs stems).map Prod.fst).Nodup ∧
    (sorted_artists (artist_songs stems)).Pairwise (fun a b => lowerLe a b = true) ∧
    (∀ songs : List (String × String),
      (sorted_songs songs).Pairwise (fun a b => lowerLe a.1 b.1 = true)) ∧
    sorted_artists (artist_songs ["Song1 - Bet", "Song2 - alef"]) = ["alef", "Bet"] := by
  refine ⟨artist_songs_keys_nodup stems, ?_, ?_, by decide⟩
  · exact pairwise_sortLe lowerLe lowerLe_trans lowerLe_total _
  · intro songs
    exact pairwise_sortLe _ (fun a b c => lowerLe_trans a.1 b.1 c.1)
      (fun a b => lowerLe_total a.1 b.1) songs

/-- C5 (code bug): a document in a folder carrying both the
separate-pagination marker and a manifest file is classified into its
Separate group and also into that folder's Manifest group (the manifest
scan does not skip `.separate` folders), even though it is excluded from the
main set. -/
theorem separate_folder_doc_in_manifest_group :
    ("G", "X.pdf") ∈ separateSongs sepManifestCfg ∧
    ("G", "X.pdf") ∈ extra_index_pdfs sepManifestCfg sepManifestFolder ∧
    ("G", "X.pdf") ∉ pdf_files sepManifestCfg := by
  decide

/-- C6: the estimator is a pure function of the item count and the layout
constants, equal to `ceil(itemCount / (rowsPerColumn * 2))` where
`rowsPerColumn = songs_per_column` is the number of line slots fitting in the
available page height at the configured line spacing. -/
theorem estimate_index_pages_eq_ceil (n : ℕ) :
    ((estimate_index_pages n : ℕ) : ℤ) = ⌈(n : ℚ) / ((songs_per_column : ℚ) * 2)⌉ ∧
    songs_per_page = songs_per_column * 2 := by
  refine ⟨?_, rfl⟩
  have hq : estimate_index_pages n = (n + songs_per_page - 1) / songs_per_page := rfl
  have hspp : songs_per_page = 78 := by decide
  have hspc : songs_per_column = 39 := by decide
  rw [hq, hspp, nat_ceil_div n 78 (by norm_num), hspc]
  norm_num

/-- C7: a title that is a single word wider than the available width is
returned as one forced-break line holding the whole word, with no sub-word
split. -/
theorem split_long_text_single_long_word (w : String → ℤ) (max_width : ℤ) (text : String)
    (hsingle : pySplit text = [text]) (hwide : max_width < w text) :
    split_long_text w text max_width = [text] :=
  split_long_text_forced_break w max_width text hsingle hwide

/-- C7 (witness): a 25-character space-free title in a column fitting 10
characters (width oracle = character count) yields exactly one line holding
the full word. -/
theorem split_long_text_single_long_word_witness :
    pySplit "abcdefghijklmnopqrstuvwxy" = ["abcdefghijklmnopqrstuvwxy"] ∧
    (10 : ℤ) < wLen "abcdefghijklmnopqrstuvwxy" ∧
    split_long_text wLen "abcdefghijklmnopqrstuvwxy" 10 = ["abcdefghijklmnopqrstuvwxy"] :=
  ⟨by decide, by decide,
    split_long_text_single_long_word wLen 10 "abcdefghijklmnopqrstuvwxy" (by decide) (by decide)⟩

/-- C8 (counterexample): the returned list can be empty for a non-empty
input: a whitespace-only text wider than the maximum width has no words, so
the loop emits no lines. -/
theorem split_long_text_empty_output_on_blank :
    split_long_text wLen " " 0 = [] ∧ (" " : String) ≠ "" := by
  decide

/-- C8 (amended): the wrapper preserves the word sequence — the words of the
returned lines, concatenated in order, are exactly the whitespace-separated
words of the input — and the returned list is non-empty for every input that
has at least one word (a whitespace-only input wider than the maximum width
yields an empty list). -/
theorem split_long_text_preserves_words (w : String → ℤ) (text : String) (max_width : ℤ) :
    wordsOfLines (split_long_text w text max_width) = pySplit text ∧
    (pySplit text ≠ [] → split_long_text w text max_width ≠ []) := by
  refine ⟨split_long_text_words w text max_width, ?_⟩
  intro hne hempty
  have h := split_long_text_words w text max_width
  rw [hempty] at h
  exact hne (by simpa [wordsOfLines] using h.symm)

/-- C8 (witness): concrete run with three words and a narrow column. -/
theorem split_long_text_preserves_words_witness :
    wordsOfLines (split_long_text wLen "aa bb cc" 3) = pySplit "aa bb cc" ∧
    split_long_text wLen "aa bb cc" 3 ≠ [] :=
  ⟨(split_long_text_preserves_words wLen "aa bb cc" 3).1,
    (split_long_text_preserves_words wLen "aa bb cc" 3).2 (by decide)⟩

/-- C9 (counterexample): for the stem `"a  b - c - d"` (double space before
the first separator) the part before the first `' - '` is `"a  b"`, but the
function returns the whitespace-normalized song name `"a b"` — the song name
too is normalized, not returned verbatim. -/
theorem extract_artist_normalizes_song_refutation :
    extract_artist_from_filename "a  b - c - d" = (some "c - d", "a b") ∧
    ("a b" : String) ≠ "a  b" ∧
    "a  b - c - d".data = "a  b".data ++ ' ' :: '-' :: ' ' :: "c - d".data := by
  decide

/-- C9 (amended): the stem is split exactly at the first occurrence of
`' - '`: no artist is returned precisely when the separator never occurs, and
for the leftmost decomposition `stem = a ++ " - " ++ b` the result is the
whitespace-normalized `b` as artist (which may itself contain `' - '`) and
the whitespace-normalized `a` as song name. -/
theorem extract_artist_first_occurrence (s : String) :
    ((extract_artist_from_filename s).1 = none ↔
      ∀ a b : List Char, s.data ≠ a ++ ' ' :: '-' :: ' ' :: b) ∧
    (∀ a b : List Char,
      s.data = a ++ ' ' :: '-' :: ' ' :: b →
      (∀ a2 b2 : List Char, s.data = a2 ++ ' ' :: '-' :: ' ' :: b2 → a.length ≤ a2.length) →
      extract_artist_from_filename s = (some (normalizeWS ⟨b⟩), normalizeWS ⟨a⟩)) := by
  constructor
  · rcases hs : splitFirstDash s.data with _ | pq
    · constructor
      · intro _
        exact splitFirstDash_none s.data hs
      · intro _
        simp [extract_artist_from_filename, hs]
    · rcases pq with ⟨p, q⟩
      constructor
      · intro hnone
        exact absurd hnone (by simp [extract_artist_from_filename, hs])
      · intro hall
        exact absurd (splitFirstDash_some s.data p q hs).1 (hall p q)
  · intro a b hab hmin
    rcases hs : splitFirstDash s.data with _ | pq
    · exact absurd hab (splitFirstDash_none s.data hs a b)
    · rcases pq with ⟨p, q⟩
      obtain ⟨hdec, hpmin⟩ := splitFirstDash_some s.data p q hs
      have hlen : a.length = p.length :=
        le_antisymm (hmin p q hdec) (hpmin a b hab)
      obtain ⟨rfl, htail⟩ := List.append_inj (hab.symm.trans hdec) hlen
      injection htail with _ htail
      injection htail with _ htail
      injection htail with _ htail
      subst htail
      simp [extract_artist_from_filename, hs]

/-- C9 (witness): the amended statement applied to `"a  b - c - d"`, whose
leftmost separator occurrence is after `"a  b"`. -/
theorem extract_artist_first_occurrence_witness :
    extract_artist_from_filename "a  b - c - d" = (some "c - d", "a b") := by
  have hmin := (splitFirstDash_some "a  b - c - d".data "a  b".data "c - d".data (by decide)).2
  have h := (extract_artist_first_occurrence "a  b - c - d").2 "a  b".data "c - d".data
    (by decide) hmin
  rw [h]
  decide

/-- C10: an item count of zero is estimated at zero index pages, not a
minimum of one. -/
theorem estimate_index_pages_zero : estimate_index_pages 0 = 0 := by decide
